import Mathlib

/-!
Verification development for the commit-coach suggestion orchestration core.

Strings from the Go source are modelled as `List Char`; Go's `len` and byte
slicing coincide with character counts on the ASCII texts the domain handles,
and we note the byte/rune distinction where it matters.  Fallible Go calls
(`(T, error)` returns) are modelled as `Except (List Char) T`; collaborator
calls (git subprocess, provider HTTP client) are modelled by the values they
return in a given invocation, and the in-memory cache by an explicit
association list threaded through the pipeline.
-/

deriving instance DecidableEq for Except

set_option maxRecDepth 200000

namespace CommitCoach

/-! ## Go string helpers (strings / unicode packages, as used by the source) -/

/-- `unicode.IsSpace` restricted to the Latin-1 range, which is what
`strings.TrimSpace` consults for the texts at hand: space, \t, \n, \v, \f,
\r, NEL (U+0085) and NBSP (U+00A0). -/
def goIsSpace (c : Char) : Bool :=
  c == ' ' || c == '\t' || c == '\n' || c == '\x0b' || c == '\x0c' || c == '\r' ||
  c == '\x85' || c == '\xa0'

/-- `strings.TrimSpace`: drop leading and trailing whitespace. -/
def trimSpace (s : List Char) : List Char :=
  ((s.dropWhile goIsSpace).reverse.dropWhile goIsSpace).reverse

/-- ASCII case lowering of one character (the fragment of `strings.ToLower`
exercised by the domain, whose commit types are ASCII). -/
def lowAscii (c : Char) : Char :=
  if 'A' ≤ c ∧ c ≤ 'Z' then Char.ofNat (c.toNat + 32) else c

/-- `strings.ToLower` on the ASCII fragment. -/
def toLowerGo (s : List Char) : List Char := s.map lowAscii

/-- Case-sensitive "p is a leading segment of l". -/
def hasPre : List Char → List Char → Bool
  | [], _ => true
  | _ :: _, [] => false
  | a :: ps, b :: ls => a == b && hasPre ps ls

/-- Case-insensitive (ASCII folding) "p is a leading segment of l", the
behaviour of a `(?i)` literal in Go's regexp on ASCII patterns. -/
def ciHasPre : List Char → List Char → Bool
  | [], _ => true
  | _ :: _, [] => false
  | a :: ps, b :: ls => lowAscii a == lowAscii b && ciHasPre ps ls

/-- Length of the maximal run of characters satisfying `p` at the head. -/
def countWhile (p : Char → Bool) (l : List Char) : Nat :=
  (l.takeWhile p).length

/-! ## domain.Suggestion (internal/domain, part_003) -/

/-- `domain.Suggestion`: one candidate commit message. -/
structure Suggestion where
  type : List Char
  subject : List Char
  body : List Char
  footer : List Char
deriving DecidableEq

/-- `domain.ValidCommitTypes`. -/
def ValidCommitTypes : List (List Char) :=
  [("feat").toList, ("fix").toList, ("docs").toList, ("style").toList,
   ("refactor").toList, ("perf").toList, ("test").toList, ("chore").toList,
   ("build").toList, ("ci").toList, ("revert").toList]

/-- `domain.isValidType`: membership in the fixed category list. -/
def isValidType (t : List Char) : Bool :=
  ValidCommitTypes.any (fun valid => valid == t)

/-- The footer regexp `^(BREAKING CHANGE|Closes|Refs): .+` checked by
`regexp.MatchString`: the string starts with one of the three markers
followed by ": " and at least one non-newline character (`.` in RE2 does not
match a newline). -/
def isValidFooter (f : List Char) : Bool :=
  [("BREAKING CHANGE: ").toList, ("Closes: ").toList, ("Refs: ").toList].any
    fun p => hasPre p f &&
      (match f.drop p.length with
       | [] => false
       | c :: _ => !(c == '\n'))

/-- `unicode.IsControl` (category Cc): code points below 32 or in 127..159. -/
def goIsControl (c : Char) : Bool :=
  c.toNat < 32 || (127 ≤ c.toNat && c.toNat ≤ 159)

/-- `domain.hasControlChars`: any rune below 32 other than \n and \t, DEL,
or a control rune (other than \n and \t). -/
def hasControlChars (s : List Char) : Bool :=
  s.any fun r =>
    (r.toNat < 32 && !(r == '\n') && !(r == '\t')) ||
    r.toNat == 127 ||
    (goIsControl r && !(r == '\n') && !(r == '\t'))

/-- The validation failure reasons produced by `Suggestion.Validate`,
one constructor per `fmt.Errorf` site, in source order. -/
inductive VErr where
  | typeRequired
  | invalidType (t : List Char)
  | subjectRequired
  | subjectTooLong (n : Nat)
  | subjectNewline
  | subjectControl
  | bodyControl
  | footerFormat
  | footerControl
deriving DecidableEq

/-- `Suggestion.Validate`: the domain rules, checked in source order. -/
def Validate (s : Suggestion) : Except VErr Unit :=
  if s.type = [] then .error .typeRequired
  else if !isValidType s.type then .error (.invalidType s.type)
  else if s.subject = [] then .error .subjectRequired
  else if s.subject.length > 72 then .error (.subjectTooLong s.subject.length)
  else if s.subject.contains '\n' then .error .subjectNewline
  else if hasControlChars s.subject then .error .subjectControl
  else if decide (s.body ≠ []) && hasControlChars s.body then .error .bodyControl
  else if s.footer ≠ [] then
    if !isValidFooter s.footer then .error .footerFormat
    else if hasControlChars s.footer then .error .footerControl
    else .ok ()
  else .ok ()

/-- `Suggestion.Normalize` as a pure function (the source mutates the
receiver): trim all four fields, lowercase the type, then hard-truncate the
subject to 72 when it still exceeds 72 after trimming. -/
def Normalize (s : Suggestion) : Suggestion :=
  let t := trimSpace (toLowerGo s.type)
  let subj := trimSpace s.subject
  let b := trimSpace s.body
  let f := trimSpace s.footer
  { type := t
    subject := if subj.length > 72 then subj.take 72 else subj
    body := b
    footer := f }

/-- `Suggestion.Format`: `"<type>: <subject>"`, then a blank line and the
body when the body is non-empty, then a blank line and the footer when the
footer is non-empty. -/
def Format (s : Suggestion) : List Char :=
  let msg := s.type ++ (": ").toList ++ s.subject
  let msg := if s.body ≠ [] then msg ++ ("\n\n").toList ++ s.body else msg
  if s.footer ≠ [] then msg ++ ("\n\n").toList ++ s.footer else msg

/-! ## security.Redactor (internal/security/redactor.go)

Each Go regexp from `NewRedactor` is embedded as a matcher
`List Char → Option Nat` returning, at a given start position, the length of
the (leftmost-first, greedy) match starting there, or `none`.  All nine
patterns are deterministic: every alternation here is prefix-exclusive (two
alternatives can never both lead to an overall match at the same position),
and every greedy repetition is followed by a character disjoint from the
repeated class, so no backtracking search is needed to mirror Go's
semantics.  `ReplaceAllString` then becomes `replaceAll`: scan left to
right, replace each match, resume after it. -/

/-- The character class `[a-zA-Z0-9]` (also `(?i)[0-9A-Z]`). -/
def isAlnumCh (c : Char) : Bool := c.isAlphanum

/-- RE2's `\s`: `[\t\n\f\r ]`. -/
def goWS (c : Char) : Bool :=
  c == ' ' || c == '\t' || c == '\n' || c == '\x0c' || c == '\r'

/-- The class `[a-zA-Z0-9._\-]` of bearer-token characters. -/
def bearerTokChar (c : Char) : Bool :=
  c.isAlphanum || c == '.' || c == '_' || c == '-'

/-- The class `[0-9A-Za-z\-_]` used by the Google-key pattern. -/
def isWordDash (c : Char) : Bool :=
  c.isAlphanum || c == '-' || c == '_'

/-- Pattern 1, `sk-[a-zA-Z0-9]{20,}` (OpenAI/Anthropic API keys): literal
`sk-` followed by a greedy run of at least 20 alphanumerics. -/
def skMatchAt (cs : List Char) : Option Nat :=
  match cs with
  | a :: b :: c :: rest =>
    if a = 's' ∧ b = 'k' ∧ c = '-' ∧ 20 ≤ countWhile isAlnumCh rest
    then some (3 + countWhile isAlnumCh rest)
    else none
  | _ => none

/-- Pattern 2, `(?i)AKIA[0-9A-Z]{16}` (AWS keys). -/
def akiaMatchAt (cs : List Char) : Option Nat :=
  if ciHasPre (("akia").toList) cs ∧ 16 ≤ countWhile isAlnumCh (cs.drop 4)
  then some 20 else none

/-- The alternation `(?i)(?:authorization|auth|token)`, tried in pattern
order; the alternatives are prefix-exclusive under the mandatory `:` that
follows. -/
def bearerAlt (cs : List Char) : Option Nat :=
  if ciHasPre (("authorization").toList) cs then some 13
  else if ciHasPre (("auth").toList) cs then some 4
  else if ciHasPre (("token").toList) cs then some 5
  else none

/-- Pattern 3, `(?i)(?:authorization|auth|token):\s*Bearer\s+[a-zA-Z0-9._\-]+`
(authorization headers). -/
def bearerMatchAt (cs : List Char) : Option Nat :=
  match bearerAlt cs with
  | none => none
  | some n =>
    match cs.drop n with
    | ':' :: r2 =>
      let w1 := countWhile goWS r2
      let r3 := r2.drop w1
      if ciHasPre (("bearer").toList) r3 then
        let r4 := r3.drop 6
        let w2 := countWhile goWS r4
        let tk := countWhile bearerTokChar (r4.drop w2)
        if 1 ≤ w2 ∧ 1 ≤ tk then some (n + 1 + w1 + 6 + w2 + tk) else none
      else none
    | _ => none

/-- The alternation `(?:api_key|apiKey|API_KEY)` (case-sensitive,
prefix-exclusive). -/
def jsonAlt (cs : List Char) : Option Nat :=
  if hasPre (("api_key").toList) cs then some 7
  else if hasPre (("apiKey").toList) cs then some 6
  else if hasPre (("API_KEY").toList) cs then some 7
  else none

/-- Pattern 4, `"(?:api_key|apiKey|API_KEY)":\s*"[^"]+"` (JSON API keys). -/
def jsonKeyMatchAt (cs : List Char) : Option Nat :=
  match cs with
  | '"' :: r1 =>
    match jsonAlt r1 with
    | none => none
    | some n =>
      match r1.drop n with
      | '"' :: ':' :: r2 =>
        let w := countWhile goWS r2
        match r2.drop w with
        | '"' :: r3 =>
          let tk := countWhile (fun c => !(c == '"')) r3
          if 1 ≤ tk then
            match r3.drop tk with
            | '"' :: _ => some (1 + n + 2 + w + 1 + tk + 1)
            | _ => none
          else none
        | _ => none
      | _ => none
  | _ => none

/-- The alternation `(?i)(?:password|passwd|pwd)` (prefix-exclusive). -/
def passAlt (cs : List Char) : Option Nat :=
  if ciHasPre (("password").toList) cs then some 8
  else if ciHasPre (("passwd").toList) cs then some 6
  else if ciHasPre (("pwd").toList) cs then some 3
  else none

/-- Pattern 5, `(?i)(?:password|passwd|pwd):\s*"[^"]+"` (password fields).
Note its shortest match, `pwd:"x"`, is 7 characters — shorter than the
10-character replacement placeholder. -/
def passwordMatchAt (cs : List Char) : Option Nat :=
  match passAlt cs with
  | none => none
  | some n =>
    match cs.drop n with
    | ':' :: r2 =>
      let w := countWhile goWS r2
      match r2.drop w with
      | '"' :: r3 =>
        let tk := countWhile (fun c => !(c == '"')) r3
        if 1 ≤ tk then
          match r3.drop tk with
          | '"' :: _ => some (n + 1 + w + 1 + tk + 1)
          | _ => none
        else none
      | _ => none
    | _ => none

/-- Pattern 6, `AIza[0-9A-Za-z\-_]{35}` (Google API keys). -/
def aizaMatchAt (cs : List Char) : Option Nat :=
  if hasPre (("AIza").toList) cs ∧ 35 ≤ countWhile isWordDash (cs.drop 4)
  then some 39 else none

/-- Pattern 7, `ghp_[a-zA-Z0-9]{36}` (GitHub tokens). -/
def ghpMatchAt (cs : List Char) : Option Nat :=
  if hasPre (("ghp_").toList) cs ∧ 36 ≤ countWhile isAlnumCh (cs.drop 4)
  then some 40 else none

/-- Pattern 8, `ghu_[a-zA-Z0-9]{36}` (GitHub tokens). -/
def ghuMatchAt (cs : List Char) : Option Nat :=
  if hasPre (("ghu_").toList) cs ∧ 36 ≤ countWhile isAlnumCh (cs.drop 4)
  then some 40 else none

/-- The optional algorithm marker `(?:RSA |DSA |EC )?` of the PEM pattern
(prefix-exclusive with each other and with the mandatory `PRIVATE` that
follows the empty alternative). -/
def pemAlg (cs : List Char) : Nat :=
  if hasPre (("RSA ").toList) cs then 4
  else if hasPre (("DSA ").toList) cs then 4
  else if hasPre (("EC ").toList) cs then 3
  else 0

/-- Pattern 9, `-----BEGIN (?:RSA |DSA |EC )?PRIVATE KEY-----`. -/
def pemMatchAt (cs : List Char) : Option Nat :=
  if hasPre (("-----BEGIN ").toList) cs then
    let r := cs.drop 11
    let a := pemAlg r
    if hasPre (("PRIVATE KEY-----").toList) (r.drop a) then some (11 + a + 16)
    else none
  else none

/-- The fixed replacement token of `Redactor.Redact`. -/
def placeholder : List Char := ("[REDACTED]").toList

/-- Fuel-driven scan of `regexp.ReplaceAllString`: the fuel (initially the
string length, an upper bound on the number of scan steps) only makes the
recursion structural; it is never exhausted on a real run. -/
def replaceAllGo (m : List Char → Option Nat) (repl : List Char) :
    Nat → List Char → List Char
  | 0, l => l
  | _ + 1, [] => []
  | fuel + 1, c :: cs =>
    match m (c :: cs) with
    | some (n + 1) => repl ++ replaceAllGo m repl fuel (cs.drop n)
    | _ => c :: replaceAllGo m repl fuel cs

/-- `regexp.ReplaceAllString` for one pattern: scan left to right, replace
each match with `repl`, resume after the matched text.  (No source pattern
can match the empty string, so a `some 0` answer is treated as no match.) -/
def replaceAll (m : List Char → Option Nat) (repl : List Char) (l : List Char) :
    List Char :=
  replaceAllGo m repl l.length l

/-- The pattern list of `NewRedactor`, in source order. -/
def redactorPatterns : List (List Char → Option Nat) :=
  [skMatchAt, akiaMatchAt, bearerMatchAt, jsonKeyMatchAt, passwordMatchAt,
   aizaMatchAt, ghpMatchAt, ghuMatchAt, pemMatchAt]

/-- `Redactor.Redact`: apply each pattern's `ReplaceAllString` over the whole
string, sequentially in pattern order. -/
def Redact (text : List Char) : List Char :=
  redactorPatterns.foldl (fun result pat => replaceAll pat placeholder result) text

/-! ## crypto/sha256, as used by `hashDiff` (part_005)

32-bit machine words are `Nat` values kept below `2^32` by explicit
reduction `% 4294967296`. -/

/-- `2^32`. -/
def M32 : Nat := 4294967296

/-- Right rotation of a 32-bit word. -/
def rotr32 (n x : Nat) : Nat := ((x >>> n) ||| ((x <<< (32 - n)) % M32))

/-- UTF-8 encoding of one character (Go strings are UTF-8 byte sequences;
`io.WriteString` feeds these bytes to the hash). -/
def utf8Encode (c : Char) : List Nat :=
  let n := c.toNat
  if n < 128 then [n]
  else if n < 2048 then [192 ||| (n >>> 6), 128 ||| (n &&& 63)]
  else if n < 65536 then
    [224 ||| (n >>> 12), 128 ||| ((n >>> 6) &&& 63), 128 ||| (n &&& 63)]
  else
    [240 ||| (n >>> 18), 128 ||| ((n >>> 12) &&& 63), 128 ||| ((n >>> 6) &&& 63),
     128 ||| (n &&& 63)]

/-- UTF-8 bytes of a string. -/
def utf8Bytes (s : List Char) : List Nat := (s.map utf8Encode).flatten

/-- Big-endian byte rendering of `v` in `n` bytes. -/
def toBytesBE (n v : Nat) : List Nat :=
  (List.range n).map fun i => (v >>> (8 * (n - 1 - i))) % 256

/-- SHA-256 padding: append `0x80`, zeros to 56 mod 64, then the bit length
in 8 big-endian bytes. -/
def sha256pad (msg : List Nat) : List Nat :=
  let L := msg.length
  let z := (119 - L % 64) % 64
  msg ++ [128] ++ List.replicate z 0 ++ toBytesBE 8 (8 * L)

/-- Group bytes into big-endian 32-bit words. -/
def toWords : List Nat → List Nat
  | a :: b :: c :: d :: rest => (((a * 256 + b) * 256 + c) * 256 + d) :: toWords rest
  | _ => []

/-- Fuel-driven block splitter (structural recursion; the fuel, initially
the list length, is never exhausted). -/
def chunks16Go : Nat → List Nat → List (List Nat)
  | 0, _ => []
  | _ + 1, [] => []
  | fuel + 1, w :: ws => (w :: ws).take 16 :: chunks16Go fuel ((w :: ws).drop 16)

/-- Split a word list into 16-word blocks. -/
def chunks16 (l : List Nat) : List (List Nat) := chunks16Go l.length l

/-- The 64 SHA-256 round constants (fractional parts of the cube roots of
the first 64 primes), written in decimal. -/
def K256 : List Nat :=
  [1116352408, 1899447441, 3049323471, 3921009573, 961987163,
   1508970993, 2453635748, 2870763221, 3624381080, 310598401,
   607225278, 1426881987, 1925078388, 2162078206, 2614888103,
   3248222580, 3835390401, 4022224774, 264347078, 604807628,
   770255983, 1249150122, 1555081692, 1996064986, 2554220882,
   2821834349, 2952996808, 3210313671, 3336571891, 3584528711,
   113926993, 338241895, 666307205, 773529912, 1294757372,
   1396182291, 1695183700, 1986661051, 2177026350, 2456956037,
   2730485921, 2820302411, 3259730800, 3345764771, 3516065817,
   3600352804, 4094571909, 275423344, 430227734, 506948616,
   659060556, 883997877, 958139571, 1322822218, 1537002063,
   1747873779, 1955562222, 2024104815, 2227730452, 2361852424,
   2428436474, 2756734187, 3204031479, 3329325298]

/-- The SHA-256 initial hash value (fractional parts of the square roots of
the first 8 primes), written in decimal. -/
def H256 : List Nat :=
  [1779033703, 3144134277, 1013904242, 2773480762,
   1359893119, 2600822924, 528734635, 1541459225]

/-- Extend a 16-word block to the 64-word message schedule. -/
def extendW (w : List Nat) : List Nat :=
  (List.range 48).foldl
    (fun acc j =>
      let i := j + 16
      let w15 := acc.getD (i - 15) 0
      let w2 := acc.getD (i - 2) 0
      let s0 := (rotr32 7 w15) ^^^ (rotr32 18 w15) ^^^ (w15 >>> 3)
      let s1 := (rotr32 17 w2) ^^^ (rotr32 19 w2) ^^^ (w2 >>> 10)
      acc ++ [(acc.getD (i - 16) 0 + s0 + acc.getD (i - 7) 0 + s1) % M32])
    w

/-- One SHA-256 compression round over the state `[a,b,c,d,e,f,g,h]`. -/
def round256 (w : List Nat) (st : List Nat) (i : Nat) : List Nat :=
  match st with
  | [a, b, c, d, e, f, g, h] =>
    let S1 := (rotr32 6 e) ^^^ (rotr32 11 e) ^^^ (rotr32 25 e)
    let ch := (e &&& f) ^^^ ((4294967295 ^^^ e) &&& g)
    let temp1 := (h + S1 + ch + K256.getD i 0 + w.getD i 0) % M32
    let S0 := (rotr32 2 a) ^^^ (rotr32 13 a) ^^^ (rotr32 22 a)
    let maj := (a &&& b) ^^^ (a &&& c) ^^^ (b &&& c)
    let temp2 := (S0 + maj) % M32
    [(temp1 + temp2) % M32, a, b, c, (d + temp1) % M32, e, f, g]
  | _ => st

/-- Compress one 16-word block into the running hash state. -/
def compressBlock (h : List Nat) (block : List Nat) : List Nat :=
  let w := extendW block
  let fin := (List.range 64).foldl (round256 w) h
  List.zipWith (fun x y => (x + y) % M32) h fin

/-- Lowercase hex digit. -/
def hexDigit (n : Nat) : Char :=
  if n < 10 then Char.ofNat (48 + n) else Char.ofNat (87 + n)

/-- Two lowercase hex characters of one byte (`fmt.Sprintf "%x"`). -/
def byteToHex (b : Nat) : List Char := [hexDigit (b / 16), hexDigit (b % 16)]

/-- `fmt.Sprintf("%x", sha256 digest)` of a byte string. -/
def sha256hex (bytes : List Nat) : List Char :=
  (((chunks16 (toWords (sha256pad bytes))).foldl compressBlock H256).map
    (toBytesBE 4)).flatten.map byteToHex |>.flatten

/-- The byte string `hashDiff` feeds to the hash: the raw diff, then
`"\nprovider="`, the provider, `"\nmodel="`, the model. -/
def hashInput (diff provider model : List Char) : List Char :=
  diff ++ ("\nprovider=").toList ++ provider ++ ("\nmodel=").toList ++ model

/-- `SuggestService.hashDiff`: SHA-256 over the raw diff plus the cache
namespace, rendered as lowercase hex. -/
def hashDiff (diff provider model : List Char) : List Char :=
  sha256hex (utf8Bytes (hashInput diff provider model))

/-! ## ports (internal/ports/ports.go) and the suggestion pipeline (part_005)

`context.Context` timeouts and cancellation are real-time behaviour and are
not modelled; no claim depends on them.  `float32` temperature is carried
through the pipeline untouched, so it is modelled as an opaque `Int` scalar.
A collaborator call is modelled by the value it returns in this invocation:
the git port by the two values its calls return, the provider by a function
from the request payload to its response, the cache by an association list
(key to stored value, most recent first — the observable behaviour of the
Go map with overwrite-on-`Set`). -/

/-- `ports.CommitSuggestion`: a raw candidate from the provider. -/
structure CommitSuggestion where
  type : List Char
  subject : List Char
  body : List Char
  footer : List Char
deriving DecidableEq

/-- `ports.SuggestInput`: the request payload handed to a provider.  The
orchestrator never populates the provider-specific `Options` map, which is
therefore omitted. -/
structure SuggestInput where
  StagedDiff : List Char
  FileList : List (List Char)
  Model : List Char
  Temperature : Int
deriving DecidableEq

/-- The outcome of the two git-port calls the suggestion pipeline makes. -/
structure GitOutcome where
  isInRepository : Except (List Char) Bool
  stagedDiff : Except (List Char) (List Char)

/-- The cache contents: key to stored (unnormalized) suggestion list. -/
abbrev CacheMap : Type := List (List Char × List CommitSuggestion)

/-- `cache.InMemory.Get`: the stored value on a hit, the `"cache miss"`
error otherwise. -/
def cacheGet (st : CacheMap) (key : List Char) :
    Except (List Char) (List CommitSuggestion) :=
  match st.find? (fun e => e.1 == key) with
  | some e => .ok e.2
  | none => .error (("cache miss").toList)

/-- `cache.InMemory.Set`: store under the key (newest entry shadows any
older one, the observable behaviour of the Go map assignment). -/
def cacheSet (st : CacheMap) (key : List Char) (v : List CommitSuggestion) :
    CacheMap :=
  (key, v) :: st

/-- The dependencies and configuration of `SuggestService`: the git call
outcomes, the provider client as a function, `diffCap`, `useCache`, and
whether a cache instance was wired (`s.cache != nil`). -/
structure SuggestEnv where
  git : GitOutcome
  llm : SuggestInput → Except (List Char) (List CommitSuggestion)
  diffCap : Nat
  useCache : Bool
  hasCache : Bool

/-- The errors `SuggestService.validateAndNormalize` produces, one per
`fmt.Errorf` site: fewer than 3 candidates ("expected 3 suggestions, got
%d") or a failed candidate ("suggestion %d validation failed: %w"). -/
inductive VNErr where
  | tooFew (n : Nat)
  | validationFailed (i : Nat) (e : VErr)
deriving DecidableEq

/-- The errors `SuggestService.SuggestCommits` surfaces, one constructor per
`return nil, err` site, mirroring the `fmt.Errorf` wrapping structure:
`vnErr` is a bare `validateAndNormalize` error returned from the cache-hit
path, while `invalidFromLLM` is the same error wrapped in "invalid
suggestions from LLM: %w" on the provider path. -/
inductive AppErr where
  | repoCheckFailed (cause : List Char)
  | notARepository
  | stagedDiffFailed (cause : List Char)
  | noStagedChanges
  | vnErr (e : VNErr)
  | llmError (cause : List Char)
  | invalidFromLLM (e : VNErr)
deriving DecidableEq

/-- Conversion of one `ports.CommitSuggestion` into a raw
`domain.Suggestion` (the struct literal inside `validateAndNormalize`). -/
def toDomain (ps : CommitSuggestion) : Suggestion :=
  { type := ps.type, subject := ps.subject, body := ps.body, footer := ps.footer }

/-- One iteration of the `validateAndNormalize` loop: convert candidate `i`,
normalize it, validate it. -/
def validateOne (i : Nat) (ps : CommitSuggestion) : Except VNErr Suggestion :=
  let ds := Normalize (toDomain ps)
  match Validate ds with
  | .error e => .error (.validationFailed i e)
  | .ok _ => .ok ds

/-- `SuggestService.validateAndNormalize`: require at least 3 candidates,
then normalize and validate exactly the first 3, in order. -/
def validateAndNormalize (l : List CommitSuggestion) :
    Except VNErr (List Suggestion) :=
  match l with
  | p0 :: p1 :: p2 :: _ =>
    match validateOne 0 p0 with
    | .error e => .error e
    | .ok s0 =>
      match validateOne 1 p1 with
      | .error e => .error e
      | .ok s1 =>
        match validateOne 2 p2 with
        | .error e => .error e
        | .ok s2 => .ok [s0, s1, s2]
  | _ => .error (.tooFew l.length)

/-- Inject a `validateAndNormalize` result into the pipeline result type
(the cache-hit path returns it unwrapped). -/
def vnToApp (r : Except VNErr (List Suggestion)) : Except AppErr (List Suggestion) :=
  match r with
  | .ok l => .ok l
  | .error e => .error (.vnErr e)

/-- `SuggestService.capDiff`: hard truncation at the byte boundary. -/
def capDiff (diff : List Char) (maxBytes : Nat) : List Char :=
  if diff.length ≤ maxBytes then diff else diff.take maxBytes

/-- The `ports.SuggestInput` the pipeline constructs on a cache miss: the
capped-then-redacted diff, an always-empty file list, model, temperature. -/
def providerInput (diff : List Char) (cap : Nat) (model : List Char)
    (temperature : Int) : SuggestInput :=
  { StagedDiff := Redact (capDiff diff cap)
    FileList := []
    Model := model
    Temperature := temperature }

/-- `SuggestService.SuggestCommits`.  Returns the result, the cache state
after the call, and how many provider invocations the call performed. -/
def SuggestCommits (env : SuggestEnv) (provider model : List Char)
    (temperature : Int) (st : CacheMap) :
    Except AppErr (List Suggestion) × CacheMap × Nat :=
  match env.git.isInRepository with
  | .error e => (.error (.repoCheckFailed e), st, 0)
  | .ok inRepo =>
    if !inRepo then (.error .notARepository, st, 0)
    else
      match env.git.stagedDiff with
      | .error e => (.error (.stagedDiffFailed e), st, 0)
      | .ok diff =>
        if diff = [] then (.error .noStagedChanges, st, 0)
        else
          let diffHash := hashDiff diff provider model
          match (if env.useCache && env.hasCache then cacheGet st diffHash
                 else .error (("cache disabled").toList)) with
          | .ok cached => (vnToApp (validateAndNormalize cached), st, 0)
          | .error _ =>
            let input := providerInput diff env.diffCap model temperature
            match env.llm input with
            | .error e => (.error (.llmError e), st, 1)
            | .ok llmSuggestions =>
              match validateAndNormalize llmSuggestions with
              | .error e => (.error (.invalidFromLLM e), st, 1)
              | .ok result =>
                (.ok result,
                 (if env.useCache && env.hasCache
                  then cacheSet st diffHash llmSuggestions else st), 1)

/-- What the pipeline does with the provider's response on a cache miss
(steps 6–8 of `SuggestCommits`): surface a provider failure as an LLM
error, validate/normalize the candidates, and on full success store the
unnormalized provider output under the fingerprint (when caching is
enabled and wired). -/
def afterProvider (resp : Except (List Char) (List CommitSuggestion))
    (cachingOn : Bool) (st : CacheMap) (key : List Char) :
    Except AppErr (List Suggestion) × CacheMap × Nat :=
  match resp with
  | .error e => (.error (.llmError e), st, 1)
  | .ok llmSuggestions =>
    match validateAndNormalize llmSuggestions with
    | .error e => (.error (.invalidFromLLM e), st, 1)
    | .ok result =>
      (.ok result, (if cachingOn then cacheSet st key llmSuggestions else st), 1)

/-- "Some position of `l` starts a match of `m`" — the `MatchString`
notion of containing a match. -/
def hasMatch (m : List Char → Option Nat) : List Char → Bool
  | [] => (m []).isSome
  | c :: cs => (m (c :: cs)).isSome || hasMatch m cs

/-! ## CommitService (part_005) and the git Executor repository check -/

/-- The errors `CommitService.Commit` surfaces. -/
inductive CommitErr where
  | emptyCommitMessage
  | gitCommitFailed (cause : List Char)
deriving DecidableEq

/-- `CommitService.Commit`: reject the empty message before attempting the
underlying commit.  `gitCommit` models the git port call by the value it
returns; the second component counts how many times the underlying
`git.Commit` was invoked. -/
def CommitServiceCommit
    (gitCommit : List Char → Bool → Except (List Char) (List Char))
    (message : List Char) (dryRun : Bool) :
    Except CommitErr (List Char) × Nat :=
  if message = [] then (.error .emptyCommitMessage, 0)
  else
    match gitCommit message dryRun with
    | .error e => (.error (.gitCommitFailed e), 1)
    | .ok hash => (.ok hash, 1)

/-- `git.Executor.IsInRepository`: run `git rev-parse --is-inside-work-tree`
and compare the trimmed output with "true"; a failed tool invocation is
swallowed and reported as `(false, nil)` ("Not in repo").  `cmdOutput`
models the subprocess outcome. -/
def ExecutorIsInRepository (cmdOutput : Except (List Char) (List Char)) :
    Except (List Char) Bool :=
  match cmdOutput with
  | .error _ => .ok false
  | .ok output => .ok (trimSpace output == ("true").toList)

/-! ## Concrete fixtures exercised by the witness and counterexample theorems -/

/-- A candidate that passes validation. -/
def sampleOk : CommitSuggestion :=
  { type := ("feat").toList, subject := ("add feature").toList
    body := [], footer := [] }

/-- A candidate with an unrecognized `type` value. -/
def sampleBad : CommitSuggestion :=
  { type := ("wizardry").toList, subject := ("add feature").toList
    body := [], footer := [] }

/-- Inside a repository, with a non-empty staged diff. -/
def gitOkSample : GitOutcome :=
  { isInRepository := .ok true, stagedDiff := .ok (("sample diff").toList) }

/-- A well-behaved provider returning four candidates (one more than
required), caching enabled. -/
def envOk : SuggestEnv :=
  { git := gitOkSample
    llm := fun _ => .ok [sampleOk, sampleOk, sampleOk, sampleOk]
    diffCap := 1000, useCache := true, hasCache := true }

/-- The provider's error echoes back the staged-diff text it was handed,
making the text that crossed the provider boundary observable in the
result; the staged diff is the 7-character secret `pwd:"x"` and the cap is
7. -/
def envEcho : SuggestEnv :=
  { git := { isInRepository := .ok true, stagedDiff := .ok (("pwd:\"x\"").toList) }
    llm := fun inp => .error inp.StagedDiff
    diffCap := 7, useCache := false, hasCache := false }

/-- A staged diff containing a 20-alphanumeric provider-key token behind the
`sk-` marker, with the echoing provider. -/
def envSecret : SuggestEnv :=
  { git := { isInRepository := .ok true
             stagedDiff := .ok (("index sk-abcdefghij0123456789 tail").toList) }
    llm := fun inp => .error inp.StagedDiff
    diffCap := 1000, useCache := false, hasCache := false }

/-- Provider returning a valid, an invalid, and a valid candidate. -/
def envBad : SuggestEnv :=
  { git := gitOkSample
    llm := fun _ => .ok [sampleOk, sampleBad, sampleOk]
    diffCap := 1000, useCache := true, hasCache := true }

/-- The repository check wired through the concrete git Executor whose
underlying tool invocation failed. -/
def envTool : SuggestEnv :=
  { git := { isInRepository :=
               ExecutorIsInRepository (.error (("exec: git not found").toList))
             stagedDiff := .ok (("d").toList) }
    llm := fun _ => .ok [sampleOk, sampleOk, sampleOk]
    diffCap := 1000, useCache := true, hasCache := true }

/-- A 200-byte staged diff with a 100-byte cap and a well-behaved provider. -/
def envBig : SuggestEnv :=
  { git := { isInRepository := .ok true
             stagedDiff := .ok (List.replicate 200 'a') }
    llm := fun _ => .ok [sampleOk, sampleOk, sampleOk]
    diffCap := 100, useCache := false, hasCache := false }

/-- A git commit call that succeeds with a fixed hash. -/
def gitCommitOk : List Char → Bool → Except (List Char) (List Char) :=
  fun _ _ => .ok (("abc123def456").toList)

/-- The repository check itself fails (as reported through the Git port). -/
def envRepoErr : SuggestEnv :=
  { git := { isInRepository := .error (("boom").toList)
             stagedDiff := .ok (("d").toList) }
    llm := fun _ => .ok [sampleOk, sampleOk, sampleOk]
    diffCap := 1000, useCache := true, hasCache := true }

/-- Not inside a repository. -/
def envNotRepo : SuggestEnv :=
  { git := { isInRepository := .ok false, stagedDiff := .ok (("d").toList) }
    llm := fun _ => .ok [sampleOk, sampleOk, sampleOk]
    diffCap := 1000, useCache := true, hasCache := true }

/-- Inside a repository, but the staged diff is empty. -/
def envEmpty : SuggestEnv :=
  { git := { isInRepository := .ok true, stagedDiff := .ok [] }
    llm := fun _ => .ok [sampleOk, sampleOk, sampleOk]
    diffCap := 1000, useCache := true, hasCache := true }

/-- A suggestion whose fields carry surrounding whitespace and whose
subject still has 80 characters after trimming. -/
def sampleLong : Suggestion :=
  { type := ("  FEAT ").toList
    subject := ("  ").toList ++ List.replicate 80 'x' ++ ("  ").toList
    body := (" some body ").toList
    footer := [] }

/-! ## Redactor lemmas

The goal: after `Redact`, no position of the output matches the provider-key
pattern `sk-[a-zA-Z0-9]{20,}` — the first pass removes every such match, and
each later pass (replacing other patterns' matches by `[REDACTED]`) cannot
reintroduce one. -/

lemma countWhile_cons (p : Char → Bool) (c : Char) (l : List Char) :
    countWhile p (c :: l) = if p c then countWhile p l + 1 else 0 := by
  simp only [countWhile, List.takeWhile_cons]
  split <;> simp

lemma countWhile_le_append (p : Char → Bool) (l l' : List Char) :
    countWhile p l ≤ countWhile p (l ++ l') := by
  induction l with
  | nil => simp [countWhile]
  | cons c t ih =>
    rw [List.cons_append, countWhile_cons, countWhile_cons]
    split <;> omega

lemma placeholder_eq :
    placeholder =
      ['[', 'R', 'E', 'D', 'A', 'C', 'T', 'E', 'D', ']'] := by decide

lemma sk_none_of_ne {c : Char} (l : List Char) (h : ¬ c = 's') :
    skMatchAt (c :: l) = none := by
  match l with
  | [] => rfl
  | [b] => rfl
  | b :: d :: u => simp [skMatchAt, h]

lemma sk_some_spec {cs : List Char} {k : Nat} (h : skMatchAt cs = some k) :
    ∃ rest, cs = 's' :: 'k' :: '-' :: rest ∧
      20 ≤ countWhile isAlnumCh rest ∧ k = 3 + countWhile isAlnumCh rest := by
  match cs with
  | [] => exact absurd h (by simp [skMatchAt])
  | [a] => exact absurd h (by simp [skMatchAt])
  | [a, b] => exact absurd h (by simp [skMatchAt])
  | a :: b :: c :: rest =>
    rw [skMatchAt] at h
    split at h
    · rename_i hg
      obtain ⟨ha, hb, hc, hrun⟩ := hg
      subst ha; subst hb; subst hc
      exact ⟨rest, rfl, hrun, (Option.some.inj h).symm⟩
    · exact absurd h (by simp)

lemma sk_of_run {rest : List Char} (h : 20 ≤ countWhile isAlnumCh rest) :
    skMatchAt ('s' :: 'k' :: '-' :: rest) =
      some (3 + countWhile isAlnumCh rest) := by
  rw [skMatchAt]
  simp [h]

lemma sk_ne_some_zero (cs : List Char) : ¬ skMatchAt cs = some 0 := by
  intro h
  obtain ⟨rest, _, _, hk⟩ := sk_some_spec h
  omega

lemma hasMatch_cons (m : List Char → Option Nat) (c : Char) (l : List Char) :
    hasMatch m (c :: l) = ((m (c :: l)).isSome || hasMatch m l) := rfl

lemma hasMatch_drop {m : List Char → Option Nat} {l : List Char}
    (h : hasMatch m l = false) (n : Nat) : hasMatch m (l.drop n) = false := by
  induction l generalizing n with
  | nil => simpa using h
  | cons c t ih =>
    match n with
    | 0 => exact h
    | n + 1 =>
      rw [hasMatch_cons, Bool.or_eq_false_iff] at h
      exact ih h.2 n

lemma hasMatch_cons_ne_s {c : Char} (l : List Char) (h : ¬ c = 's') :
    hasMatch skMatchAt (c :: l) = hasMatch skMatchAt l := by
  rw [hasMatch_cons, sk_none_of_ne l h]
  simp

lemma hasMatch_ph_append (r : List Char) :
    hasMatch skMatchAt (placeholder ++ r) = hasMatch skMatchAt r := by
  rw [placeholder_eq]
  simp only [List.cons_append, List.nil_append]
  rw [hasMatch_cons_ne_s _ (by decide), hasMatch_cons_ne_s _ (by decide),
      hasMatch_cons_ne_s _ (by decide), hasMatch_cons_ne_s _ (by decide),
      hasMatch_cons_ne_s _ (by decide), hasMatch_cons_ne_s _ (by decide),
      hasMatch_cons_ne_s _ (by decide), hasMatch_cons_ne_s _ (by decide),
      hasMatch_cons_ne_s _ (by decide), hasMatch_cons_ne_s _ (by decide)]

lemma replaceAllGo_peel {m : List Char → Option Nat} {fuel : Nat}
    {x : Char} {v l : List Char}
    (h : replaceAllGo m placeholder fuel l = x :: v) (hx : ¬ x = '[') :
    ∃ l' fuel', l = x :: l' ∧ v = replaceAllGo m placeholder fuel' l' := by
  match fuel, l with
  | 0, l =>
    rw [replaceAllGo] at h
    exact ⟨v, 0, h, by rw [replaceAllGo]⟩
  | fuel + 1, [] => exact absurd h (by rw [replaceAllGo]; simp)
  | fuel + 1, c :: cs =>
    rw [replaceAllGo] at h
    split at h
    · rw [placeholder_eq] at h
      exact absurd (List.cons.inj h).1.symm hx
    · obtain ⟨hc, hv⟩ := List.cons.inj h
      exact ⟨cs, fuel, by rw [hc], hv.symm⟩

lemma countWhile_replaceAllGo_le (m : List Char → Option Nat) (fuel : Nat) :
    ∀ l, countWhile isAlnumCh (replaceAllGo m placeholder fuel l) ≤
      countWhile isAlnumCh l := by
  induction fuel with
  | zero =>
    intro l
    rw [replaceAllGo]
  | succ n ih =>
    intro l
    match l with
    | [] => rw [replaceAllGo]
    | c :: cs =>
      rw [replaceAllGo]
      split
      · rw [placeholder_eq, List.cons_append, countWhile_cons]
        have h : isAlnumCh '[' = false := by decide
        rw [h]
        simp only [Bool.false_eq_true, if_false]
        omega
      · rw [countWhile_cons, countWhile_cons]
        have := ih cs
        split <;> omega

lemma sk_head_preserved {m : List Char → Option Nat} {fuel : Nat}
    {c : Char} {cs : List Char} (h : skMatchAt (c :: cs) = none) :
    skMatchAt (c :: replaceAllGo m placeholder fuel cs) = none := by
  rcases ho : skMatchAt (c :: replaceAllGo m placeholder fuel cs) with _ | k
  · rfl
  · exfalso
    obtain ⟨rest, hsh, hrun, _⟩ := sk_some_spec ho
    obtain ⟨hc, htail⟩ := List.cons.inj hsh
    obtain ⟨cs₁, f₁, hcs₁, htail₁⟩ := replaceAllGo_peel htail (by decide)
    obtain ⟨cs₂, f₂, hcs₂, htail₂⟩ := replaceAllGo_peel htail₁.symm (by decide)
    have hrun₂ : 20 ≤ countWhile isAlnumCh cs₂ := by
      have := countWhile_replaceAllGo_le m f₂ cs₂
      rw [← htail₂] at this
      omega
    rw [hc, hcs₁, hcs₂, sk_of_run hrun₂] at h
    exact Option.some_ne_none _ h

lemma redact_sk_go (fuel : Nat) :
    ∀ l, l.length ≤ fuel →
      hasMatch skMatchAt (replaceAllGo skMatchAt placeholder fuel l) = false := by
  induction fuel with
  | zero =>
    intro l hl
    have : l = [] := List.eq_nil_of_length_eq_zero (by omega)
    subst this
    rfl
  | succ n ih =>
    intro l hl
    match l with
    | [] => rfl
    | c :: cs =>
      rw [replaceAllGo]
      split
      · rename_i j hm
        rw [hasMatch_ph_append]
        refine ih (cs.drop j) ?_
        simp only [List.length_cons] at hl
        have := List.length_drop j cs
        omega
      · rename_i harm
        have hm : skMatchAt (c :: cs) = none := by
          rcases ho : skMatchAt (c :: cs) with _ | k
          · rfl
          · match k with
            | 0 => exact absurd ho (sk_ne_some_zero _)
            | j + 1 => exact absurd ho (fun hh => harm j hh)
        rw [hasMatch_cons, sk_head_preserved hm]
        simp only [Option.isSome_none, Bool.false_or]
        refine ih cs ?_
        simp only [List.length_cons] at hl
        omega

lemma preserve_sk_go (m : List Char → Option Nat) (fuel : Nat) :
    ∀ l, l.length ≤ fuel → hasMatch skMatchAt l = false →
      hasMatch skMatchAt (replaceAllGo m placeholder fuel l) = false := by
  induction fuel with
  | zero =>
    intro l _ hl
    rw [replaceAllGo]
    exact hl
  | succ n ih =>
    intro l hlen hl
    match l with
    | [] => rfl
    | c :: cs =>
      rw [hasMatch_cons, Bool.or_eq_false_iff] at hl
      rw [replaceAllGo]
      split
      · rename_i j _
        rw [hasMatch_ph_append]
        refine ih (cs.drop j) ?_ (hasMatch_drop hl.2 j)
        simp only [List.length_cons] at hlen
        have := List.length_drop j cs
        omega
      · have hm : skMatchAt (c :: cs) = none :=
          Option.not_isSome_iff_eq_none.mp (by simp [hl.1])
        rw [hasMatch_cons, sk_head_preserved hm]
        simp only [Option.isSome_none, Bool.false_or]
        refine ih cs ?_ hl.2
        simp only [List.length_cons] at hlen
        omega

lemma redact_one_sk (l : List Char) :
    hasMatch skMatchAt (replaceAll skMatchAt placeholder l) = false :=
  redact_sk_go l.length l (Nat.le_refl _)

lemma preserve_one_sk (m : List Char → Option Nat) (l : List Char)
    (h : hasMatch skMatchAt l = false) :
    hasMatch skMatchAt (replaceAll m placeholder l) = false :=
  preserve_sk_go m l.length l (Nat.le_refl _) h

/-- After the full `Redact` pass, no position of the output matches the
provider-key pattern `sk-[a-zA-Z0-9]{20,}`. -/
lemma Redact_no_sk (t : List Char) :
    hasMatch skMatchAt (Redact t) = false := by
  simp only [Redact, redactorPatterns, List.foldl]
  exact preserve_one_sk _ _ (preserve_one_sk _ _ (preserve_one_sk _ _
    (preserve_one_sk _ _ (preserve_one_sk _ _ (preserve_one_sk _ _
      (preserve_one_sk _ _ (preserve_one_sk _ _ (redact_one_sk t))))))))

lemma hasMatch_of_append (m : List Char → Option Nat) (a w b : List Char)
    (h : (m (w ++ b)).isSome = true) : hasMatch m (a ++ (w ++ b)) = true := by
  induction a with
  | nil =>
    match hw : w ++ b with
    | [] => rw [hw] at h; exact h
    | c :: cs =>
      rw [hw] at h
      rw [hasMatch_cons, h, Bool.true_or]
  | cons c a' ih =>
    rw [List.cons_append, hasMatch_cons, ih, Bool.or_true]

lemma sk_extend {w : List Char} (b : List Char)
    (h : (skMatchAt w).isSome = true) : (skMatchAt (w ++ b)).isSome = true := by
  rw [Option.isSome_iff_exists] at h
  obtain ⟨k, hk⟩ := h
  obtain ⟨rest, hw, hrun, _⟩ := sk_some_spec hk
  subst hw
  have hrun' : 20 ≤ countWhile isAlnumCh (rest ++ b) :=
    le_trans hrun (countWhile_le_append _ _ _)
  simp only [List.cons_append]
  rw [sk_of_run hrun']
  rfl

/-- The redacted text never contains, as a substring, any string matching
the provider-key pattern. -/
lemma Redact_no_verbatim (t a w b : List Char)
    (h : (skMatchAt w).isSome = true) : ¬ Redact t = a ++ w ++ b := by
  intro heq
  have h1 : hasMatch skMatchAt (a ++ (w ++ b)) = true :=
    hasMatch_of_append _ a w b (sk_extend b h)
  rw [← List.append_assoc, ← heq, Redact_no_sk] at h1
  exact Bool.false_ne_true h1

/-! ## validateAndNormalize lemmas -/

lemma validateOne_ok {i : Nat} {ps : CommitSuggestion} {s : Suggestion}
    (h : validateOne i ps = .ok s) :
    s = Normalize (toDomain ps) ∧ Validate s = .ok () := by
  simp only [validateOne] at h
  split at h
  · exact absurd h (by simp)
  · rename_i u hval
    cases u
    have hs := Except.ok.inj h
    exact ⟨hs.symm, hs ▸ hval⟩

lemma validateOne_err {i : Nat} {ps : CommitSuggestion} {e : VErr}
    (h : Validate (Normalize (toDomain ps)) = .error e) :
    validateOne i ps = .error (.validationFailed i e) := by
  simp only [validateOne]
  split
  · rename_i e' h'
    rw [h] at h'
    rw [Except.error.inj h']
  · rename_i u h'
    rw [h] at h'
    exact absurd h' (by simp)

lemma vn_ok_spec {l : List CommitSuggestion} {r : List Suggestion}
    (h : validateAndNormalize l = .ok r) :
    ∃ p0 p1 p2 rest, l = p0 :: p1 :: p2 :: rest ∧
      r = [Normalize (toDomain p0), Normalize (toDomain p1),
           Normalize (toDomain p2)] ∧
      ∀ s ∈ r, Validate s = .ok () := by
  match l with
  | [] => exact absurd h (by simp [validateAndNormalize])
  | [_] => exact absurd h (by simp [validateAndNormalize])
  | [_, _] => exact absurd h (by simp [validateAndNormalize])
  | p0 :: p1 :: p2 :: rest =>
    rw [validateAndNormalize] at h
    split at h
    · exact absurd h (by simp)
    · rename_i s0 h0
      split at h
      · exact absurd h (by simp)
      · rename_i s1 h1
        split at h
        · exact absurd h (by simp)
        · rename_i s2 h2
          obtain ⟨hs0, hv0⟩ := validateOne_ok h0
          obtain ⟨hs1, hv1⟩ := validateOne_ok h1
          obtain ⟨hs2, hv2⟩ := validateOne_ok h2
          have hr := (Except.ok.inj h).symm
          refine ⟨p0, p1, p2, rest, rfl, by rw [hr, hs0, hs1, hs2], ?_⟩
          intro s hs
          rw [hr] at hs
          simp only [List.mem_cons, List.not_mem_nil, or_false] at hs
          rcases hs with h' | h' | h' <;> rw [h']
          · exact hv0
          · exact hv1
          · exact hv2

lemma vn_take3 {l : List CommitSuggestion} (h : 3 ≤ l.length) :
    validateAndNormalize l = validateAndNormalize (l.take 3) := by
  match l with
  | [] => simp at h
  | [_] => simp at h
  | [_, _] => simp at h
  | p0 :: p1 :: p2 :: rest => rfl

lemma vn_short {l : List CommitSuggestion} (h : l.length < 3) :
    validateAndNormalize l = .error (.tooFew l.length) := by
  match l with
  | [] => rfl
  | [_] => rfl
  | [_, _] => rfl
  | _ :: _ :: _ :: _ => simp at h; omega

lemma vn_fail {p0 p1 p2 : CommitSuggestion} {rest : List CommitSuggestion}
    (h : ¬ Validate (Normalize (toDomain p0)) = .ok () ∨
         ¬ Validate (Normalize (toDomain p1)) = .ok () ∨
         ¬ Validate (Normalize (toDomain p2)) = .ok ()) :
    ∃ j e, validateAndNormalize (p0 :: p1 :: p2 :: rest) =
      .error (.validationFailed j e) := by
  rw [validateAndNormalize]
  split
  · rename_i e0 h0
    simp only [validateOne] at h0
    split at h0
    · rename_i e h'
      exact ⟨0, e, by rw [Except.error.inj h0.symm]⟩
    · exact absurd h0 (by simp)
  · rename_i s0 h0
    split
    · rename_i e1 h1
      simp only [validateOne] at h1
      split at h1
      · rename_i e h'
        exact ⟨1, e, by rw [Except.error.inj h1.symm]⟩
      · exact absurd h1 (by simp)
    · rename_i s1 h1
      split
      · rename_i e2 h2
        simp only [validateOne] at h2
        split at h2
        · rename_i e h'
          exact ⟨2, e, by rw [Except.error.inj h2.symm]⟩
        · exact absurd h2 (by simp)
      · rename_i s2 h2
        exfalso
        obtain ⟨_, hv0⟩ := validateOne_ok h0
        obtain ⟨_, hv1⟩ := validateOne_ok h1
        obtain ⟨_, hv2⟩ := validateOne_ok h2
        obtain ⟨hs0, _⟩ := validateOne_ok h0
        obtain ⟨hs1, _⟩ := validateOne_ok h1
        obtain ⟨hs2, _⟩ := validateOne_ok h2
        rcases h with h' | h' | h'
        · exact h' (hs0 ▸ hv0)
        · exact h' (hs1 ▸ hv1)
        · exact h' (hs2 ▸ hv2)

/-! ## Pipeline structural lemmas -/

lemma suggest_repoErr {env : SuggestEnv} {p m : List Char} {t : Int}
    {st : CacheMap} {e : List Char}
    (h : env.git.isInRepository = .error e) :
    SuggestCommits env p m t st = (.error (.repoCheckFailed e), st, 0) := by
  rw [SuggestCommits, h]

lemma suggest_notRepo {env : SuggestEnv} {p m : List Char} {t : Int}
    {st : CacheMap}
    (h : env.git.isInRepository = .ok false) :
    SuggestCommits env p m t st = (.error .notARepository, st, 0) := by
  rw [SuggestCommits, h]
  exact rfl

lemma suggest_diffErr {env : SuggestEnv} {p m : List Char} {t : Int}
    {st : CacheMap} {e : List Char}
    (h1 : env.git.isInRepository = .ok true)
    (h2 : env.git.stagedDiff = .error e) :
    SuggestCommits env p m t st = (.error (.stagedDiffFailed e), st, 0) := by
  rw [SuggestCommits, h1, h2]
  exact rfl

lemma suggest_noStaged {env : SuggestEnv} {p m : List Char} {t : Int}
    {st : CacheMap}
    (h1 : env.git.isInRepository = .ok true)
    (h2 : env.git.stagedDiff = .ok []) :
    SuggestCommits env p m t st = (.error .noStagedChanges, st, 0) := by
  rw [SuggestCommits, h1, h2]
  exact rfl

lemma suggest_hit {env : SuggestEnv} {p m : List Char} {t : Int}
    {st : CacheMap} {diff : List Char} {cached : List CommitSuggestion}
    (h1 : env.git.isInRepository = .ok true)
    (h2 : env.git.stagedDiff = .ok diff)
    (h3 : ¬ diff = [])
    (h4 : (env.useCache && env.hasCache) = true)
    (h5 : cacheGet st (hashDiff diff p m) = .ok cached) :
    SuggestCommits env p m t st =
      (vnToApp (validateAndNormalize cached), st, 0) := by
  rw [SuggestCommits, h1, h2]
  simp only [Bool.not_true, Bool.false_eq_true, if_false, if_neg h3, h4, if_true, h5]

lemma suggest_miss {env : SuggestEnv} {p m : List Char} {t : Int}
    {st : CacheMap} {diff msg : List Char}
    (h1 : env.git.isInRepository = .ok true)
    (h2 : env.git.stagedDiff = .ok diff)
    (h3 : ¬ diff = [])
    (h4 : (if env.useCache && env.hasCache
           then cacheGet st (hashDiff diff p m)
           else .error (("cache disabled").toList)) = .error msg) :
    SuggestCommits env p m t st =
      afterProvider (env.llm (providerInput diff env.diffCap m t))
        (env.useCache && env.hasCache) st (hashDiff diff p m) := by
  rw [SuggestCommits, h1, h2]
  simp only [Bool.not_true, Bool.false_eq_true, if_false, if_neg h3, h4]
  rw [afterProvider.eq_def]

lemma cacheGet_cacheSet (st : CacheMap) (k : List Char)
    (v : List CommitSuggestion) : cacheGet (cacheSet st k v) k = .ok v := by
  simp [cacheGet, cacheSet, List.find?]

lemma hashInput_inj_iff (d1 d2 p m : List Char) :
    hashInput d1 p m = hashInput d2 p m ↔ d1 = d2 := by
  constructor
  · intro h
    simp only [hashInput] at h
    exact List.append_cancel_right (List.append_cancel_right
      (List.append_cancel_right (List.append_cancel_right h)))
  · intro h; rw [h]

lemma suggest_ok_spec {env : SuggestEnv} {p m : List Char} {t : Int}
    {st : CacheMap} {r : List Suggestion}
    (h : (SuggestCommits env p m t st).1 = .ok r) :
    ∃ cs, validateAndNormalize cs = .ok r := by
  rcases hrepo : env.git.isInRepository with e | b
  · rw [suggest_repoErr hrepo] at h; simp at h
  · match b with
    | false => rw [suggest_notRepo hrepo] at h; simp at h
    | true =>
      rcases hdiff : env.git.stagedDiff with e | diff
      · rw [suggest_diffErr hrepo hdiff] at h; simp at h
      · by_cases hnil : diff = []
        · rw [hnil] at hdiff
          rw [suggest_noStaged hrepo hdiff] at h; simp at h
        · rcases hcache : (if env.useCache && env.hasCache
              then cacheGet st (hashDiff diff p m)
              else .error (("cache disabled").toList)) with msg | cached
          · rw [suggest_miss hrepo hdiff hnil hcache] at h
            rcases hllm : env.llm (providerInput diff env.diffCap m t)
              with e | ls
            · simp [afterProvider, hllm] at h
            · rcases hvn : validateAndNormalize ls with e | res
              · simp [afterProvider, hllm, hvn] at h
              · refine ⟨ls, ?_⟩
                simp [afterProvider, hllm, hvn] at h
                rw [hvn, h]
          · by_cases hg : (env.useCache && env.hasCache) = true
            · rw [if_pos hg] at hcache
              rw [suggest_hit hrepo hdiff hnil hg hcache] at h
              rcases hvn : validateAndNormalize cached with e | l
              · simp [vnToApp, hvn] at h
              · refine ⟨cached, ?_⟩
                simp [vnToApp, hvn] at h
                rw [hvn, h]
            · rw [if_neg hg] at hcache
              exact absurd hcache (by simp)

lemma normalize_subject_le (s : Suggestion) :
    (Normalize s).subject.length ≤ 72 := by
  simp only [Normalize]
  split
  · rw [List.length_take]; omega
  · omega

lemma normalize_subject_take {s : Suggestion}
    (h : 72 < (trimSpace s.subject).length) :
    (Normalize s).subject = (trimSpace s.subject).take 72 ∧
      (Normalize s).subject.length = 72 := by
  simp only [Normalize]
  rw [if_pos (by omega)]
  exact ⟨rfl, by rw [List.length_take]; omega⟩

lemma capDiff_le (diff : List Char) (cap : Nat) :
    (capDiff diff cap).length ≤ cap := by
  simp only [capDiff]
  split
  · omega
  · rw [List.length_take]; omega

/-! ## Claim theorems -/

/-- C8: `Normalize` trims leading/trailing whitespace from all four fields,
lowercases the type, and guarantees the subject is at most 72 characters
afterwards, hard-truncating it to exactly 72 characters when it still
exceeds 72 after trimming; since the orchestrator runs `Normalize` before
`Validate` on each candidate, every suggestion a successful `SuggestCommits`
returns has a subject of at most 72 characters. -/
theorem C8_normalize_trim_truncate (s : Suggestion) :
    (Normalize s).type = trimSpace (toLowerGo s.type)
    ∧ (Normalize s).body = trimSpace s.body
    ∧ (Normalize s).footer = trimSpace s.footer
    ∧ ((trimSpace s.subject).length ≤ 72 →
        (Normalize s).subject = trimSpace s.subject)
    ∧ (Normalize s).subject.length ≤ 72
    ∧ (72 < (trimSpace s.subject).length →
        (Normalize s).subject = (trimSpace s.subject).take 72 ∧
        (Normalize s).subject.length = 72)
    ∧ (∀ env p m t st r, (SuggestCommits env p m t st).1 = .ok r →
        ∀ s' ∈ r, s'.subject.length ≤ 72) := by
  refine ⟨rfl, rfl, rfl, ?_, normalize_subject_le s,
    fun h => normalize_subject_take h, ?_⟩
  · intro h
    simp only [Normalize]
    rw [if_neg (by omega)]
  · intro env p m t st r hok s' hs'
    obtain ⟨cs, hvn⟩ := suggest_ok_spec hok
    obtain ⟨p0, p1, p2, rest, _, hr, _⟩ := vn_ok_spec hvn
    rw [hr] at hs'
    simp only [List.mem_cons, List.not_mem_nil, or_false] at hs'
    rcases hs' with h' | h' | h' <;> rw [h'] <;> exact normalize_subject_le _

/-- C8 witness: on a suggestion with an 80-character trimmed subject, the
normalized type is the trimmed lowercase type and the subject is truncated
to exactly 72 characters. -/
theorem C8_witness :
    (Normalize sampleLong).type = trimSpace (toLowerGo sampleLong.type)
    ∧ 72 < (trimSpace sampleLong.subject).length
    ∧ (Normalize sampleLong).subject = (trimSpace sampleLong.subject).take 72
    ∧ (Normalize sampleLong).subject.length = 72 :=
  ⟨(C8_normalize_trim_truncate sampleLong).1, by decide,
   ((C8_normalize_trim_truncate sampleLong).2.2.2.2.2.1 (by decide)).1,
   ((C8_normalize_trim_truncate sampleLong).2.2.2.2.2.1 (by decide)).2⟩

/-- C9: `CommitService.Commit` fails with `EmptyCommitMessage` without
invoking the underlying git commit exactly when the message is the empty
string; for any non-empty message (including whitespace-only) the check
passes and the underlying commit is attempted. -/
theorem C9_empty_commit_message
    (g : List Char → Bool → Except (List Char) (List Char))
    (message : List Char) (dryRun : Bool) :
    (message = [] →
      CommitServiceCommit g message dryRun = (.error .emptyCommitMessage, 0))
    ∧ (¬ message = [] →
      CommitServiceCommit g message dryRun =
        (match g message dryRun with
         | .error e => (.error (.gitCommitFailed e), 1)
         | .ok hash => (.ok hash, 1)))
    ∧ (CommitServiceCommit g message dryRun = (.error .emptyCommitMessage, 0)
        ↔ message = []) := by
  refine ⟨fun h => by simp [CommitServiceCommit, h],
    fun h => by simp [CommitServiceCommit, h], ?_, ?_⟩
  · intro h
    by_contra hm
    rcases hg : g message dryRun with e | hh <;>
      simp [CommitServiceCommit, if_neg hm, hg] at h
  · intro h
    simp [CommitServiceCommit, h]

/-- C9 witness: the empty message yields `EmptyCommitMessage` with zero
underlying commit calls; the whitespace-only message `" "` passes the
emptiness check and the underlying commit is attempted (one call). -/
theorem C9_witness :
    CommitServiceCommit gitCommitOk [] false = (.error .emptyCommitMessage, 0)
    ∧ CommitServiceCommit gitCommitOk ((" ").toList) false =
        (.ok (("abc123def456").toList), 1) := by
  refine ⟨(C9_empty_commit_message gitCommitOk [] false).1 rfl, ?_⟩
  rw [(C9_empty_commit_message gitCommitOk ((" ").toList) false).2.1 (by decide)]
  rfl

/-- C10: `Format` deterministically renders `"<type>: <subject>"`, followed
by a blank line and the body when the body is non-empty, followed by a
blank line and the footer when the footer is non-empty; with non-empty body
and footer it renders exactly `"type: subject\n\nbody\n\nfooter"`. -/
theorem C10_format_rendering (s : Suggestion) :
    (¬ s.body = [] → ¬ s.footer = [] →
      Format s = s.type ++ (": ").toList ++ s.subject ++ ("\n\n").toList ++
        s.body ++ ("\n\n").toList ++ s.footer)
    ∧ (s.body = [] → s.footer = [] →
      Format s = s.type ++ (": ").toList ++ s.subject)
    ∧ (¬ s.body = [] → s.footer = [] →
      Format s = s.type ++ (": ").toList ++ s.subject ++ ("\n\n").toList ++ s.body)
    ∧ (s.body = [] → ¬ s.footer = [] →
      Format s = s.type ++ (": ").toList ++ s.subject ++ ("\n\n").toList ++ s.footer) := by
  refine ⟨fun h1 h2 => ?_, fun h1 h2 => ?_, fun h1 h2 => ?_, fun h1 h2 => ?_⟩ <;>
    simp [Format, h1, h2, List.append_assoc]

/-- C10 witness: a suggestion with non-empty body and footer renders as the
exact five-part concatenation. -/
theorem C10_witness :
    Format { type := ("feat").toList, subject := ("add x").toList,
             body := ("body text").toList, footer := ("Refs: #1").toList } =
      ("feat: add x\n\nbody text\n\nRefs: #1").toList := by
  rw [(C10_format_rendering _).1 (by decide) (by decide)]
  decide

/-- C1: every `SuggestCommits` invocation either returns exactly 3
normalized, validated suggestions or an error — never 0, 1, 2 or more than
3; `validateAndNormalize` uses exactly the first 3 of a longer candidate
list, and fewer than 3 candidates is the hard failure "expected 3
suggestions, got n" (`MalformedProviderResponse`), surfaced from the
provider path wrapped as `invalidFromLLM`. -/
theorem C1_exactly_three_or_error (env : SuggestEnv) (p m : List Char)
    (t : Int) (st : CacheMap) :
    (∀ r, (SuggestCommits env p m t st).1 = .ok r →
      r.length = 3 ∧ ∀ s ∈ r, Validate s = .ok () ∧ ∃ c, s = Normalize (toDomain c))
    ∧ (∀ cs : List CommitSuggestion, 3 ≤ cs.length →
        validateAndNormalize cs = validateAndNormalize (cs.take 3))
    ∧ (∀ cs : List CommitSuggestion, cs.length < 3 →
        validateAndNormalize cs = .error (.tooFew cs.length))
    ∧ (∀ diff msg cs,
        env.git.isInRepository = .ok true →
        env.git.stagedDiff = .ok diff → ¬ diff = [] →
        (if env.useCache && env.hasCache then cacheGet st (hashDiff diff p m)
         else .error (("cache disabled").toList)) = .error msg →
        env.llm (providerInput diff env.diffCap m t) = .ok cs →
        cs.length < 3 →
        SuggestCommits env p m t st =
          (.error (.invalidFromLLM (.tooFew cs.length)), st, 1)) := by
  refine ⟨?_, fun cs h => vn_take3 h, fun cs h => vn_short h, ?_⟩
  · intro r hok
    obtain ⟨cs, hvn⟩ := suggest_ok_spec hok
    obtain ⟨p0, p1, p2, rest, _, hr, hval⟩ := vn_ok_spec hvn
    refine ⟨by rw [hr]; rfl, ?_⟩
    intro s hs
    refine ⟨hval s hs, ?_⟩
    rw [hr] at hs
    simp only [List.mem_cons, List.not_mem_nil, or_false] at hs
    rcases hs with h' | h' | h'
    · exact ⟨p0, h'⟩
    · exact ⟨p1, h'⟩
    · exact ⟨p2, h'⟩
  · intro diff msg cs h1 h2 h3 h4 hllm hlen
    rw [suggest_miss h1 h2 h3 h4]
    simp [afterProvider, hllm, vn_short hlen]

/-- C1 witness: with a provider returning four candidates the result is
exactly the first three, normalized; a two-candidate list is the hard
"expected 3 suggestions, got 2" failure. -/
theorem C1_witness :
    (SuggestCommits envOk (("ollama").toList) (("llama3").toList) 0 []).1 =
      .ok [Normalize (toDomain sampleOk), Normalize (toDomain sampleOk),
           Normalize (toDomain sampleOk)]
    ∧ [Normalize (toDomain sampleOk), Normalize (toDomain sampleOk),
       Normalize (toDomain sampleOk)].length = 3
    ∧ validateAndNormalize [sampleOk, sampleOk] = .error (.tooFew 2) := by
  refine ⟨by decide, ?_, ?_⟩
  · exact ((C1_exactly_three_or_error envOk (("ollama").toList)
      (("llama3").toList) 0 []).1 _ (by decide)).1
  · exact (C1_exactly_three_or_error envOk (("ollama").toList)
      (("llama3").toList) 0 []).2.2.1 [sampleOk, sampleOk] (by decide)

/-- C2: on a cache miss the provider is handed exactly
`providerInput diff cap model t`, whose staged-diff text is the capped diff
passed through `Redact`; that text contains no match of the provider-key
pattern `sk-[a-zA-Z0-9]{20,}` at any position, so a secret of that shape
never appears verbatim in the text that crosses the provider boundary. -/
theorem C2_redact_before_provider {env : SuggestEnv} {p model : List Char}
    {t : Int} {st : CacheMap} {diff msg : List Char}
    (h1 : env.git.isInRepository = .ok true)
    (h2 : env.git.stagedDiff = .ok diff)
    (h3 : ¬ diff = [])
    (h4 : (if env.useCache && env.hasCache
           then cacheGet st (hashDiff diff p model)
           else .error (("cache disabled").toList)) = .error msg) :
    SuggestCommits env p model t st =
      afterProvider (env.llm (providerInput diff env.diffCap model t))
        (env.useCache && env.hasCache) st (hashDiff diff p model)
    ∧ (providerInput diff env.diffCap model t).StagedDiff =
        Redact (capDiff diff env.diffCap)
    ∧ hasMatch skMatchAt ((providerInput diff env.diffCap model t).StagedDiff)
        = false
    ∧ ∀ a w b, (skMatchAt w).isSome = true →
        ¬ (providerInput diff env.diffCap model t).StagedDiff = a ++ w ++ b := by
  refine ⟨suggest_miss h1 h2 h3 h4, ?_, ?_, ?_⟩
  · simp only [providerInput]
  · simp only [providerInput]
    exact Redact_no_sk _
  · simp only [providerInput]
    exact fun a w b hw => Redact_no_verbatim _ a w b hw

/-- C2 witness: a staged diff containing the 23-character secret
`sk-abcdefghij0123456789` is redacted before the provider sees it — the
echoing provider observed only `index [REDACTED] tail`. -/
theorem C2_witness :
    hasMatch skMatchAt (("index sk-abcdefghij0123456789 tail").toList) = true
    ∧ (SuggestCommits envSecret (("openai").toList) (("gpt").toList) 0 []).1 =
        .error (.llmError (("index [REDACTED] tail").toList))
    ∧ hasMatch skMatchAt
        ((providerInput (("index sk-abcdefghij0123456789 tail").toList) 1000
          (("gpt").toList) 0).StagedDiff) = false := by
  refine ⟨by decide, by decide, ?_⟩
  exact (@C2_redact_before_provider envSecret (("openai").toList)
    (("gpt").toList) 0 [] (("index sk-abcdefghij0123456789 tail").toList)
    (("cache disabled").toList) rfl rfl (by decide) rfl).2.2.1

/-- C3: with caching enabled, a miss-then-hit pair of calls with the same
diff, provider and model invokes the provider exactly once: the first call
stores the unnormalized provider output under the fingerprint and returns
the normalized set; the second call hits the cache, re-normalizes and
re-validates the cached raw output, returns the identical normalized set,
and performs zero provider calls. -/
theorem C3_cache_idempotence {env : SuggestEnv} {p model : List Char}
    {t : Int} {st : CacheMap} {diff : List Char}
    {cands : List CommitSuggestion} {r : List Suggestion}
    (h1 : env.git.isInRepository = .ok true)
    (h2 : env.git.stagedDiff = .ok diff)
    (h3 : ¬ diff = [])
    (h4 : env.useCache = true)
    (h5 : env.hasCache = true)
    (h6 : cacheGet st (hashDiff diff p model) = .error (("cache miss").toList))
    (h7 : env.llm (providerInput diff env.diffCap model t) = .ok cands)
    (h8 : validateAndNormalize cands = .ok r) :
    SuggestCommits env p model t st =
      (.ok r, cacheSet st (hashDiff diff p model) cands, 1)
    ∧ SuggestCommits env p model t (cacheSet st (hashDiff diff p model) cands) =
      (vnToApp (validateAndNormalize cands),
       cacheSet st (hashDiff diff p model) cands, 0)
    ∧ vnToApp (validateAndNormalize cands) = .ok r := by
  have hgate : (env.useCache && env.hasCache) = true := by rw [h4, h5]; rfl
  refine ⟨?_, ?_, by rw [h8]; rfl⟩
  · rw [suggest_miss h1 h2 h3 (by rw [if_pos hgate, h6])]
    simp [afterProvider, h7, h8, hgate]
  · exact suggest_hit h1 h2 h3 hgate (cacheGet_cacheSet st _ cands)

/-- C3 witness: two sequential calls on `envOk` — the first returns the
normalized set, stores the raw four-candidate provider output, and calls
the provider once; the second returns the same set from the cache with
zero provider calls. -/
theorem C3_witness :
    SuggestCommits envOk (("ollama").toList) (("llama3").toList) 0 [] =
      (.ok [Normalize (toDomain sampleOk), Normalize (toDomain sampleOk),
            Normalize (toDomain sampleOk)],
       cacheSet [] (hashDiff (("sample diff").toList) (("ollama").toList)
         (("llama3").toList)) [sampleOk, sampleOk, sampleOk, sampleOk], 1)
    ∧ SuggestCommits envOk (("ollama").toList) (("llama3").toList) 0
        (cacheSet [] (hashDiff (("sample diff").toList) (("ollama").toList)
          (("llama3").toList)) [sampleOk, sampleOk, sampleOk, sampleOk]) =
      (.ok [Normalize (toDomain sampleOk), Normalize (toDomain sampleOk),
            Normalize (toDomain sampleOk)],
       cacheSet [] (hashDiff (("sample diff").toList) (("ollama").toList)
         (("llama3").toList)) [sampleOk, sampleOk, sampleOk, sampleOk], 0) := by
  have h := @C3_cache_idempotence envOk (("ollama").toList)
    (("llama3").toList) 0 [] (("sample diff").toList)
    [sampleOk, sampleOk, sampleOk, sampleOk]
    [Normalize (toDomain sampleOk), Normalize (toDomain sampleOk),
     Normalize (toDomain sampleOk)]
    rfl rfl (by decide) rfl rfl rfl rfl (by decide)
  exact ⟨h.1, by rw [h.2.1, h.2.2]⟩

/-- C4 counterexample: with a 7-byte staged diff `pwd:"x"` and a 7-byte
cap, the capped diff matches the password pattern and is replaced by the
10-character `[REDACTED]`, so the text actually handed to the provider
(echoed back by the observing provider) is longer than the cap — the claim
"the StagedDiff text handed to the Provider Client never exceeds the cap"
is false on the code. -/
theorem C4_counterexample :
    (SuggestCommits envEcho (("p").toList) (("m").toList) 0 []).1 =
      .error (.llmError (("[REDACTED]").toList))
    ∧ envEcho.diffCap = 7
    ∧ ¬ (("[REDACTED]").toList).length ≤ envEcho.diffCap := by
  exact ⟨by decide, rfl, by decide⟩

/-- C4 (amended): the *capped* diff never exceeds the cap, the provider is
handed the capped diff passed through `Redact` (so the provider-bound text
can exceed the cap only by redaction replacing a shorter match with the
10-character placeholder), and an oversized diff still yields a successful
suggestion set with a well-behaved provider. -/
theorem C4_cap_then_redact {env : SuggestEnv} {p model : List Char}
    {t : Int} {st : CacheMap} {diff msg : List Char}
    (h1 : env.git.isInRepository = .ok true)
    (h2 : env.git.stagedDiff = .ok diff)
    (h3 : ¬ diff = [])
    (h4 : (if env.useCache && env.hasCache
           then cacheGet st (hashDiff diff p model)
           else .error (("cache disabled").toList)) = .error msg) :
    (capDiff diff env.diffCap).length ≤ env.diffCap
    ∧ (providerInput diff env.diffCap model t).StagedDiff =
        Redact (capDiff diff env.diffCap)
    ∧ (∀ cands r, env.llm (providerInput diff env.diffCap model t) = .ok cands →
        validateAndNormalize cands = .ok r →
        (SuggestCommits env p model t st).1 = .ok r) := by
  refine ⟨capDiff_le diff env.diffCap, by simp only [providerInput], ?_⟩
  intro cands r hllm hvn
  rw [suggest_miss h1 h2 h3 h4]
  simp [afterProvider, hllm, hvn]

/-- C4 witness: a 200-byte diff with a 100-byte cap is capped to 100 bytes
and still produces the successful 3-suggestion set. -/
theorem C4_witness :
    (capDiff (List.replicate 200 'a') 100).length ≤ 100
    ∧ (SuggestCommits envBig (("ollama").toList) (("llama3").toList) 0 []).1 =
        .ok [Normalize (toDomain sampleOk), Normalize (toDomain sampleOk),
             Normalize (toDomain sampleOk)] := by
  have h := @C4_cap_then_redact envBig (("ollama").toList) (("llama3").toList)
    0 [] (List.replicate 200 'a') (("cache disabled").toList)
    rfl rfl (by decide) rfl
  exact ⟨h.1, h.2.2 [sampleOk, sampleOk, sampleOk]
    [Normalize (toDomain sampleOk), Normalize (toDomain sampleOk),
     Normalize (toDomain sampleOk)] rfl (by decide)⟩

/-- C5: the cache fingerprint is `sha256` over the raw, uncapped diff plus
the provider and model identifiers (a deterministic function with no cap
argument); for a fixed provider and model the hashed byte string determines
and is determined by the diff, so any change to the diff — including one
beyond the cap boundary — changes the hash input; on a successful miss the
pipeline stores under exactly that raw-diff fingerprint while the provider
receives the capped, redacted text; and a concrete pair of diffs that agree
on the first 4 bytes (the whole capped region) but differ beyond it
receives different fingerprints. -/
theorem C5_fingerprint_raw_diff :
    (∀ d q n : List Char, hashDiff d q n = sha256hex (utf8Bytes (hashInput d q n)))
    ∧ (∀ d1 d2 q n : List Char, hashInput d1 q n = hashInput d2 q n ↔ d1 = d2)
    ∧ (∀ (env : SuggestEnv) (p model : List Char) (t : Int) (st : CacheMap)
         (diff msg : List Char) cands r,
        env.git.isInRepository = .ok true →
        env.git.stagedDiff = .ok diff → ¬ diff = [] →
        (if env.useCache && env.hasCache
         then cacheGet st (hashDiff diff p model)
         else .error (("cache disabled").toList)) = .error msg →
        env.llm (providerInput diff env.diffCap model t) = .ok cands →
        validateAndNormalize cands = .ok r →
        env.useCache = true → env.hasCache = true →
        SuggestCommits env p model t st =
          (.ok r, cacheSet st (hashDiff diff p model) cands, 1))
    ∧ (capDiff (("abcdX").toList) 4 = capDiff (("abcdY").toList) 4
       ∧ ¬ (("abcdX").toList = ("abcdY").toList)
       ∧ ¬ hashDiff (("abcdX").toList) (("ollama").toList) (("llama3").toList)
           = hashDiff (("abcdY").toList) (("ollama").toList) (("llama3").toList)) := by
  refine ⟨fun d q n => rfl, fun d1 d2 q n => hashInput_inj_iff d1 d2 q n,
    ?_, by decide, by decide, by decide⟩
  intro env p model t st diff msg cands r h1 h2 h3 h4 hllm hvn hu hc
  rw [suggest_miss h1 h2 h3 h4]
  have hgate : (env.useCache && env.hasCache) = true := by rw [hu, hc]; rfl
  simp [afterProvider, hllm, hvn, hgate]

/-- C5 witness: the fingerprint of the sample run is the hash of the raw
diff plus identifiers; equality of hash inputs is equivalent to equality of
diffs; and the successful run stores under the raw-diff fingerprint. -/
theorem C5_witness :
    hashDiff (("sample diff").toList) (("ollama").toList) (("llama3").toList) =
      sha256hex (utf8Bytes (hashInput (("sample diff").toList)
        (("ollama").toList) (("llama3").toList)))
    ∧ (hashInput (("abc").toList) (("q").toList) (("n").toList) =
        hashInput (("abd").toList) (("q").toList) (("n").toList) ↔
        ("abc").toList = ("abd").toList)
    ∧ SuggestCommits envOk (("ollama").toList) (("llama3").toList) 0 [] =
        (.ok [Normalize (toDomain sampleOk), Normalize (toDomain sampleOk),
              Normalize (toDomain sampleOk)],
         cacheSet [] (hashDiff (("sample diff").toList) (("ollama").toList)
           (("llama3").toList)) [sampleOk, sampleOk, sampleOk, sampleOk], 1) := by
  refine ⟨C5_fingerprint_raw_diff.1 _ _ _, C5_fingerprint_raw_diff.2.1 _ _ _ _, ?_⟩
  exact C5_fingerprint_raw_diff.2.2.1 envOk (("ollama").toList)
    (("llama3").toList) 0 [] (("sample diff").toList) (("cache miss").toList)
    [sampleOk, sampleOk, sampleOk, sampleOk]
    [Normalize (toDomain sampleOk), Normalize (toDomain sampleOk),
     Normalize (toDomain sampleOk)]
    rfl rfl (by decide) rfl rfl (by decide) rfl rfl

/-- C6: if any one of the 3 used candidates fails validation after
normalization, the whole call fails with the "suggestion i validation
failed" error wrapped as `invalidFromLLM` (`InvalidSuggestion`) and no
suggestion list is returned, even when the other candidates are valid. -/
theorem C6_all_or_nothing {env : SuggestEnv} {p model : List Char}
    {t : Int} {st : CacheMap} {diff msg : List Char}
    {p0 p1 p2 : CommitSuggestion} {rest : List CommitSuggestion}
    (h1 : env.git.isInRepository = .ok true)
    (h2 : env.git.stagedDiff = .ok diff)
    (h3 : ¬ diff = [])
    (h4 : (if env.useCache && env.hasCache
           then cacheGet st (hashDiff diff p model)
           else .error (("cache disabled").toList)) = .error msg)
    (h7 : env.llm (providerInput diff env.diffCap model t) =
            .ok (p0 :: p1 :: p2 :: rest))
    (hfail : ¬ Validate (Normalize (toDomain p0)) = .ok () ∨
             ¬ Validate (Normalize (toDomain p1)) = .ok () ∨
             ¬ Validate (Normalize (toDomain p2)) = .ok ()) :
    (∀ r, ¬ (SuggestCommits env p model t st).1 = .ok r)
    ∧ ∃ j e, SuggestCommits env p model t st =
        (.error (.invalidFromLLM (.validationFailed j e)), st, 1) := by
  obtain ⟨j, e, hje⟩ := @vn_fail p0 p1 p2 rest hfail
  have hm := @suggest_miss env p model t st diff msg h1 h2 h3 h4
  constructor
  · intro r hok
    rw [hm] at hok
    simp [afterProvider, h7, hje] at hok
  · exact ⟨j, e, by rw [hm]; simp [afterProvider, h7, hje]⟩

/-- C6 witness: with a valid, an invalid (`type = "wizardry"`), and a valid
candidate, the whole call fails with the index-1 validation error and the
valid first candidate is not returned either. -/
theorem C6_witness :
    (¬ (SuggestCommits envBad (("ollama").toList) (("llama3").toList) 0 []).1 =
        .ok [Normalize (toDomain sampleOk), Normalize (toDomain sampleOk),
             Normalize (toDomain sampleOk)])
    ∧ (SuggestCommits envBad (("ollama").toList) (("llama3").toList) 0 []).1 =
        .error (.invalidFromLLM (.validationFailed 1
          (.invalidType (("wizardry").toList))))
    ∧ Validate (Normalize (toDomain sampleOk)) = .ok () := by
  have h := @C6_all_or_nothing envBad (("ollama").toList) (("llama3").toList)
    0 [] (("sample diff").toList) (("cache miss").toList)
    sampleOk sampleBad sampleOk []
    rfl rfl (by decide) rfl rfl (Or.inr (Or.inl (by decide)))
  exact ⟨h.1 _, by decide, by decide⟩

/-- C7 counterexample: the concrete git Executor maps a failed
`git rev-parse` invocation to `(false, nil)`, so a transient tool failure
during the repository check is reported by `SuggestCommits` as
`NotARepository` — contradicting the claim that a tool failure is never
reported as `NotARepository`. -/
theorem C7_counterexample :
    ExecutorIsInRepository (.error (("exec: git not found").toList)) = .ok false
    ∧ SuggestCommits envTool (("p").toList) (("m").toList) 0 [] =
        (.error .notARepository, [], 0) := by
  exact ⟨rfl, by decide⟩

/-- C7 (amended): the orchestrator distinguishes the three entry failure
kinds based on what the Git port reports — a port error becomes the
infrastructure error `repoCheckFailed` (distinct from `notARepository` and
`noStagedChanges`), `false` becomes `notARepository`, and an empty staged
diff becomes `noStagedChanges` — but the bundled git Executor swallows any
tool error of the repository check into `(false, nil)`, so through that
Executor a transient tool failure is reported as `NotARepository`. -/
theorem C7_error_kinds (env : SuggestEnv) (p m : List Char) (t : Int)
    (st : CacheMap) (e : List Char) :
    (env.git.isInRepository = .error e →
      SuggestCommits env p m t st = (.error (.repoCheckFailed e), st, 0))
    ∧ (env.git.isInRepository = .ok false →
      SuggestCommits env p m t st = (.error .notARepository, st, 0))
    ∧ (env.git.isInRepository = .ok true → env.git.stagedDiff = .ok [] →
      SuggestCommits env p m t st = (.error .noStagedChanges, st, 0))
    ∧ (¬ (AppErr.repoCheckFailed e = .notARepository)
       ∧ ¬ (AppErr.repoCheckFailed e = .noStagedChanges)
       ∧ ¬ (AppErr.notARepository = .noStagedChanges))
    ∧ (∀ cause : List Char, ExecutorIsInRepository (.error cause) = .ok false) := by
  exact ⟨fun h => suggest_repoErr h, fun h => suggest_notRepo h,
    fun h1 h2 => suggest_noStaged h1 h2,
    ⟨by simp, by simp, by simp⟩, fun _ => rfl⟩

/-- C7 witness: the three entry failure kinds on concrete environments. -/
theorem C7_witness :
    SuggestCommits envRepoErr (("p").toList) (("m").toList) 0 [] =
      (.error (.repoCheckFailed (("boom").toList)), [], 0)
    ∧ SuggestCommits envNotRepo (("p").toList) (("m").toList) 0 [] =
      (.error .notARepository, [], 0)
    ∧ SuggestCommits envEmpty (("p").toList) (("m").toList) 0 [] =
      (.error .noStagedChanges, [], 0) := by
  exact ⟨(C7_error_kinds envRepoErr (("p").toList) (("m").toList) 0 []
      (("boom").toList)).1 rfl,
    (C7_error_kinds envNotRepo (("p").toList) (("m").toList) 0 [] []).2.1 rfl,
    (C7_error_kinds envEmpty (("p").toList) (("m").toList) 0 [] []).2.2.1 rfl rfl⟩

end CommitCoach

